import Mathlib

/-!
Verification development for the Knowledge Base Storage & Retrieval Engine
of the wavie-in-slack repository (services/claude-agent-proxy-svc/internal/knowledge).

The Go source is shallowly embedded: registry records become Lean structures,
the registry-mutating operations become pure functions from a backend state
(the in-memory registry plus its persisted copy) to a result and a new state,
and sources of nondeterminism in the code (generated UUIDs, timestamps,
success or failure of filesystem / object-store I/O) become explicit
parameters.  Paths are lists of characters and the path manipulation done by
Go's path/filepath package (Clean, Join, Ext) is embedded component by
component, following the Go standard library's lexical algorithm.
-/

namespace Wavie

/-- Agent record, from knowledge/types.go (struct Agent). -/
structure Agent where
  id : String
  name : String
  description : String
  tenantID : String
  apiKey : String
  createdAt : Nat
deriving DecidableEq

/-- KnowledgeFile record, from knowledge/types.go (struct KnowledgeFile). -/
structure KnowledgeFile where
  id : String
  name : String
  description : String
  filePath : String
  agentIDs : List String
  uploadedAt : Nat
  fileSize : Int
  contentType : String
deriving DecidableEq

/-- KnowledgeRegistry, from knowledge/types.go (struct KnowledgeRegistry). -/
structure KnowledgeRegistry where
  agents : List Agent
  knowledgeFiles : List KnowledgeFile
deriving DecidableEq

/-- Backend state: the in-memory registry plus the persisted (saved) copy.
saveRegistry, when it succeeds, overwrites `disk` with `mem`. -/
structure BackendState where
  mem : KnowledgeRegistry
  disk : KnowledgeRegistry
deriving DecidableEq

/-- The default agent seeded on first startup when no registry exists
(NewStorageManager / NewGCPStorageManager). The creation timestamp is a
parameter. -/
def defaultAgent (t : Nat) : Agent :=
  { id := "wavie-bot", name := "Wavie Bot",
    description := "Default Wavie Bot agent for Slack",
    tenantID := "bitwave", apiKey := "", createdAt := t }

/-- Initial state after NewStorageManager seeds and saves the default
registry. -/
def seedState (t : Nat) : BackendState :=
  let reg : KnowledgeRegistry := { agents := [defaultAgent t], knowledgeFiles := [] }
  ⟨reg, reg⟩

/-- GetAgent (identical in types.go and storage_gcp.go): find the agent by ID
and return a copy with the API key stripped. -/
def getAgent (reg : KnowledgeRegistry) (agentID : String) : Option Agent :=
  match reg.agents.find? (fun a => a.id == agentID) with
  | some a => some { a with apiKey := "" }
  | none => none

/-- GetAllAgents: copy of the agent list with API keys stripped. -/
def getAllAgents (reg : KnowledgeRegistry) : List Agent :=
  reg.agents.map (fun a => { a with apiKey := "" })

/-- CreateAgent (identical logic in types.go and storage_gcp.go).
`apiKey` stands for the generated uuid, `now` for time.Now(), and `saveOk`
for whether saveRegistry succeeds.  On a duplicate ID the function returns
an error before touching the registry; on a save failure the appended agent
remains in memory (the Go code does not roll it back) but the persisted copy
is unchanged. -/
def createAgent (st : BackendState) (id name description tenantID apiKey : String)
    (now : Nat) (saveOk : Bool) : Option Agent × BackendState :=
  if st.mem.agents.any (fun a => a.id == id) then
    (none, st)
  else
    let agent : Agent := { id := id, name := name, description := description,
                           tenantID := tenantID, apiKey := apiKey, createdAt := now }
    let mem : KnowledgeRegistry := { st.mem with agents := st.mem.agents ++ [agent] }
    if saveOk then
      (some { agent with apiKey := "" }, ⟨mem, mem⟩)
    else
      (none, ⟨mem, st.disk⟩)

/-- GetKnowledgeFilesForAgent (identical in both backends): keep the files
whose agent_ids contain the given agent; the inner Go loop appends the file
once and breaks, which is exactly a containment test. -/
def getKnowledgeFilesForAgent (reg : KnowledgeRegistry) (agentID : String) :
    List KnowledgeFile :=
  reg.knowledgeFiles.filter (fun f => f.agentIDs.any (fun i => i == agentID))

/-- GetAllKnowledgeFiles: a copy of the knowledge-file list (value-level view;
the slice-aliasing behaviour of the Go copy is modelled separately below). -/
def getAllKnowledgeFiles (reg : KnowledgeRegistry) : List KnowledgeFile :=
  reg.knowledgeFiles

/-- Removal of the first file with the given ID, as done by
append(s[:i], s[i+1:]...) at the first index found. -/
def removeFirstById : List KnowledgeFile → String → List KnowledgeFile
  | [], _ => []
  | f :: rest, id => if f.id == id then rest else f :: removeFirstById rest id

/-- Outcome of a delete operation. -/
inductive DeleteOutcome where
  | ok
  | notFound
  | saveFailed
  | removeFailed
  | timedOut
deriving DecidableEq

/-- DeleteKnowledgeFile of the local backend (types.go): find the file, remove
it from the registry, save the registry, then delete the file directory with
os.RemoveAll; a RemoveAll failure (`removeOk = false`) is returned as an
error even though the registry was already updated and saved. -/
def deleteKnowledgeFile (st : BackendState) (id : String) (saveOk removeOk : Bool) :
    DeleteOutcome × BackendState :=
  match st.mem.knowledgeFiles.find? (fun f => f.id == id) with
  | none => (.notFound, st)
  | some f =>
    let mem : KnowledgeRegistry :=
      { st.mem with knowledgeFiles := removeFirstById st.mem.knowledgeFiles id }
    if saveOk then
      let st' : BackendState := ⟨mem, mem⟩
      if f.filePath ≠ "" ∧ ¬ removeOk then (.removeFailed, st')
      else (.ok, st')
    else
      (.saveFailed, ⟨mem, st.disk⟩)

/-- DeleteKnowledgeFile of the cloud backend (storage_gcp.go, the variant with
the 30-second deadline): after the registry is removed and saved, the sweep
over the objects under the file's prefix logs every per-object listing or
deletion failure (`objectDeleteOk` records their outcomes) and never fails
the operation because of them; only an expired context deadline
(`timedOut = true`) during the sweep is returned as an error. -/
def gcpDeleteKnowledgeFile (st : BackendState) (id : String) (saveOk : Bool)
    (objectDeleteOk : List Bool) (timedOut : Bool) : DeleteOutcome × BackendState :=
  match st.mem.knowledgeFiles.find? (fun f => f.id == id) with
  | none => (.notFound, st)
  | some f =>
    let mem : KnowledgeRegistry :=
      { st.mem with knowledgeFiles := removeFirstById st.mem.knowledgeFiles id }
    if saveOk then
      let st' : BackendState := ⟨mem, mem⟩
      let _ := objectDeleteOk.length
      if f.filePath ≠ "" ∧ timedOut then (.timedOut, st')
      else (.ok, st')
    else
      (.saveFailed, ⟨mem, st.disk⟩)

/-! Embedding of Go's path/filepath lexical path processing (Unix rules),
used by extractZipFile's path-traversal guard. A path is a list of
characters; Clean works on the list of slash-separated components with the
standard stack algorithm of the Go standard library. -/

/-- The component ".." . -/
def dotdot : List Char := ['.', '.']

/-- The component "." . -/
def dotc : List Char := ['.']

/-- Split a character list on '/'. Always returns at least one (possibly
empty) component. -/
def splitSlash : List Char → List (List Char)
  | [] => [[]]
  | c :: rest =>
    if c = '/' then [] :: splitSlash rest
    else
      match splitSlash rest with
      | [] => [[c]]
      | g :: gs => (c :: g) :: gs

/-- One iteration of the component-stack loop of Go's filepath.Clean. The
head of `stack` is the most recently emitted component. Empty and "."
components are dropped; ".." pops the stack when possible, is dropped at the
root of a rooted path, and accumulates at the bottom of an unrooted path. -/
def cleanStep (rooted : Bool) (stack : List (List Char)) (c : List Char) :
    List (List Char) :=
  if c = [] ∨ c = dotc then stack
  else if c = dotdot then
    match stack with
    | [] => if rooted then [] else [dotdot]
    | top :: rest => if top = dotdot then dotdot :: top :: rest else rest
  else c :: stack

/-- The component-stack loop of Go's filepath.Clean. -/
def cleanStack (rooted : Bool) : List (List Char) → List (List Char) → List (List Char)
  | stack, [] => stack
  | stack, c :: cs => cleanStack rooted (cleanStep rooted stack c) cs

/-- Join components with '/'. -/
def intercalateSlash : List (List Char) → List Char
  | [] => []
  | [c] => c
  | c :: d :: ds => c ++ '/' :: intercalateSlash (d :: ds)

/-- Go's filepath.Clean on Unix. -/
def goClean (p : List Char) : List Char :=
  match p with
  | [] => dotc
  | c :: _ =>
    if c = '/' then
      '/' :: intercalateSlash ((cleanStack true [] (splitSlash p)).reverse)
    else
      let stack := (cleanStack false [] (splitSlash p)).reverse
      if stack = [] then dotc
      else intercalateSlash stack

/-- Go's filepath.Join of two elements: empty elements are skipped, otherwise
the elements are joined with '/' and the result is Cleaned. -/
def goJoin (a b : List Char) : List Char :=
  if a = [] then (if b = [] then [] else goClean b)
  else if b = [] then goClean a
  else goClean (a ++ '/' :: b)

/-- The path-traversal guard of extractZipFile (types.go line 349 and
storage_gcp.go line 966): the entry is accepted iff
strings.HasPrefix(filepath.Join(destPath, file.Name), destPath). -/
def zipGuardAccepts (dest name : List Char) : Bool :=
  List.isPrefixOf dest (goJoin dest name)

/-- Resolved path lies inside the destination root: it is the root itself or
a path below it (root followed by a path separator). -/
def insideRoot (root p : List Char) : Bool :=
  p == root || List.isPrefixOf (root ++ ['/']) p

/-- Destination paths of the form used by both backends: absolute, nonempty
below the root, with no empty, "." or ".." component and no trailing slash
(i.e. already in Clean form). -/
def cleanAbsPath (dest : List Char) : Bool :=
  match dest with
  | [] => false
  | c :: s =>
    c == '/' && !s.isEmpty &&
      (splitSlash s).all (fun x => !x.isEmpty && !(x == dotc) && !(x == dotdot))

/-- An archive-entry name contains an upward traversal component. -/
def hasUpward (name : List Char) : Bool :=
  (splitSlash name).any (fun c => c == dotdot)

/-- One entry of a zip archive: slash-separated relative name, uncompressed
size and whether the entry is a directory. -/
structure ZipEntry where
  name : List Char
  size : Nat
  isDir : Bool
deriving DecidableEq

/-- ExtractionResult, from storage_gcp.go; the error is represented by the
name of the offending archive entry. -/
structure ExtractionResult where
  success : Bool
  filesExtracted : Nat
  markdownFiles : Nat
  totalSizeBytes : Nat
  errorName : Option (List Char)
deriving DecidableEq

/-- Case-insensitive ".md" suffix test, strings.HasSuffix(strings.ToLower _, ".md"). -/
def isMarkdownName (name : List Char) : Bool :=
  List.isSuffixOf (".md".data) (name.map Char.toLower)

/-- The extraction loop of extractZipFile, identical in both backends: each
entry's resolved path is checked by the guard; a rejected entry aborts the
whole extraction with an invalid-file-path error; directory entries only
create directories; extracted files are counted along with their sizes and
markdown classification. I/O failures while copying are not modelled (the
claims under verification concern the guard and the control flow around it). -/
def runExtract (dest : List Char) : List ZipEntry → ExtractionResult
  | [] => ⟨true, 0, 0, 0, none⟩
  | e :: rest =>
    if zipGuardAccepts dest e.name then
      if e.isDir then runExtract dest rest
      else
        let r := runExtract dest rest
        if r.success then
          { r with filesExtracted := r.filesExtracted + 1,
                   markdownFiles := r.markdownFiles + (if isMarkdownName e.name then 1 else 0),
                   totalSizeBytes := r.totalSizeBytes + e.size }
        else r
    else ⟨false, 0, 0, 0, some e.name⟩

/-- The file paths physically written by the extraction loop before it
returns: every accepted non-directory entry up to (not including) the first
rejected entry; already-written files are not rolled back on failure. -/
def extractWritten (dest : List Char) : List ZipEntry → List (List Char)
  | [] => []
  | e :: rest =>
    if zipGuardAccepts dest e.name then
      (if e.isDir then [] else [goJoin dest e.name]) ++ extractWritten dest rest
    else []

/-- A component kept by Clean: neither empty nor ".". -/
def keepComp (c : List Char) : Bool :=
  !(decide (c = [] ∨ c = dotc))

/-- Directory the local backend stores a file under:
filepath.Join(basePath, "files", fileID). -/
def localFilePath (basePath : List Char) (fileID : String) : List Char :=
  goJoin (goJoin basePath ("files".data)) fileID.data

/-- The local extraction destination, filepath.Join(filePath, "extracted"). -/
def localExtractDest (basePath : List Char) (fileID : String) : List Char :=
  goJoin (localFilePath basePath fileID) ("extracted".data)

/-- StoreKnowledgeFile of the local backend (types.go): write the raw archive
under basePath/files/fileID/content.zip, extract it into the "extracted"
subdirectory, and only on extraction success append the record and save the
registry.  `fileID` stands for the generated uuid, `size` for the byte count
copied, `now` for time.Now(), `saveOk` for the outcome of saveRegistry.
A failed extraction returns an error with the registry untouched; a failed
registry save leaves the appended record in memory but not on disk. -/
def storeKnowledgeFile (st : BackendState) (basePath : List Char)
    (fileID name description : String) (agentIDs : List String)
    (entries : List ZipEntry) (size : Int) (contentType : String)
    (now : Nat) (saveOk : Bool) :
    Option KnowledgeFile × ExtractionResult × BackendState :=
  let filePath := localFilePath basePath fileID
  let r := runExtract (localExtractDest basePath fileID) entries
  if r.success then
    let kf : KnowledgeFile :=
      { id := fileID, name := name, description := description,
        filePath := String.mk filePath, agentIDs := agentIDs,
        uploadedAt := now, fileSize := size, contentType := contentType }
    let mem : KnowledgeRegistry :=
      { st.mem with knowledgeFiles := st.mem.knowledgeFiles ++ [kf] }
    if saveOk then (some kf, r, ⟨mem, mem⟩)
    else (none, r, ⟨mem, st.disk⟩)
  else
    (none, ⟨false, 0, 0, 0, r.errorName⟩, st)

/-- StoreKnowledgeFile of the cloud backend (storage_gcp.go, the variant that
reports an ExtractionResult): the archive is uploaded, extraction runs in a
fresh temporary directory (`tempExtractDir`, from os.MkdirTemp) and, when it
fails, the code logs the error and continues: the knowledge-file record is
appended and the registry saved regardless, with the failure reported only
inside the returned ExtractionResult. -/
def gcpStoreKnowledgeFile (st : BackendState) (tempExtractDir : List Char)
    (fileID name description : String) (agentIDs : List String)
    (entries : List ZipEntry) (size : Int) (contentType : String)
    (now : Nat) (saveOk : Bool) :
    Option KnowledgeFile × ExtractionResult × BackendState :=
  let filePath := "files/" ++ fileID
  let r := runExtract tempExtractDir entries
  let kf : KnowledgeFile :=
    { id := fileID, name := name, description := description,
      filePath := filePath, agentIDs := agentIDs,
      uploadedAt := now, fileSize := size, contentType := contentType }
  let mem : KnowledgeRegistry :=
    { st.mem with knowledgeFiles := st.mem.knowledgeFiles ++ [kf] }
  if saveOk then (some kf, r, ⟨mem, mem⟩)
  else (none, r, ⟨mem, st.disk⟩)

/-! Knowledge retriever (retriever.go): per-agent cache of markdown document
bodies and the token-budgeted context builder. Documents are lists of
characters. -/

/-- The retriever's cache, a Go map from agent ID to the cached document
list; modelled as an association list where assignment prepends and lookup
takes the first match. -/
def Cache := List (String × List (List Char))

/-- Go map read `content, ok := r.cache[agentID]`. -/
def cacheLookup (cache : Cache) (agentID : String) : Option (List (List Char)) :=
  match cache.find? (fun p => p.1 == agentID) with
  | some p => some p.2
  | none => none

/-- Go map write `r.cache[agentID] = content`. -/
def cacheInsert (cache : Cache) (agentID : String) (v : List (List Char)) : Cache :=
  (agentID, v) :: cache

/-- GetKnowledgeForAgent: on a cache hit return the cached list; on a miss
ask the backend for the agent's files and, when there are none, return nil
without touching the cache; otherwise walk each file's extracted directory
(`walk f` stands for the markdown bodies the WalkDir loop collects for file
`f`, a per-file read failure contributing nothing) and store the accumulated
list in the cache before returning it. -/
def getKnowledgeForAgent (reg : KnowledgeRegistry)
    (walk : KnowledgeFile → List (List Char)) (cache : Cache) (agentID : String) :
    List (List Char) × Cache :=
  match cacheLookup cache agentID with
  | some content => (content, cache)
  | none =>
    let files := getKnowledgeFilesForAgent reg agentID
    if files.isEmpty then ([], cache)
    else
      let allContent := (files.map walk).flatten
      (allContent, cacheInsert cache agentID allContent)

/-- Rough token estimate: math.Round(float64(n) * 0.25) for a byte count n,
exact because 0.25 is a binary power and Round rounds half away from zero. -/
def estTokens (n : Nat) : Nat := (n + 2) / 4

/-- Maximum knowledge context size in tokens (retriever.go). -/
def maxKnowledgeTokens : Nat := 50000

/-- Fixed context header written first by GetKnowledgeContext. -/
def kbHeader : List Char := ("# Knowledge Base\n\n").data

/-- Per-document heading, fmt.Sprintf of the 1-based document number. -/
def docHeading (i : Nat) : List Char :=
  ("## Document ").data ++ Nat.toDigits 10 (i + 1) ++ ("\n\n").data

/-- Per-document separator. -/
def docSeparator : List Char := ("\n\n---\n\n").data

/-- The truncation notice appended when the token ceiling is reached, for a
given number of omitted documents. -/
def truncationNote (omitted : Nat) : List Char :=
  ("\n\n*Note: ").data ++ Nat.toDigits 10 omitted ++
    (" additional documents were omitted due to token limits.*\n").data

/-- Estimated token cost the loop charges for document number `i`: heading,
body and separator. -/
def docCost (i : Nat) (doc : List Char) : Nat :=
  estTokens (docHeading i).length + estTokens doc.length + estTokens docSeparator.length

/-- Combined cost of documents `i, i+1, ...` . -/
def docsCost : Nat → List (List Char) → Nat
  | _, [] => 0
  | i, d :: rest => docCost i d + docsCost (i + 1) rest

/-- The running estimate GetKnowledgeContext tracks: the fixed header plus
every document's heading, body and separator. -/
def combinedCost (docs : List (List Char)) : Nat :=
  estTokens kbHeader.length + docsCost 0 docs

/-- One fully included document: heading, body, separator. -/
def wrapDoc (i : Nat) (doc : List Char) : List Char :=
  docHeading i ++ doc ++ docSeparator

/-- The loop of GetKnowledgeContext (retriever.go): documents are appended
whole, in order, while the running token estimate stays within the ceiling;
the first document that would push the estimate past the ceiling triggers
the truncation notice (counting it and every later document as omitted) and
stops the loop.  Returns the text after the fixed header, the number of
included documents and whether truncation happened. -/
def buildContext : List (List Char) → Nat → Nat → Nat → List Char × Nat × Bool
  | [], _, _, _ => ([], 0, false)
  | doc :: rest, i, tokenCount, total =>
    if tokenCount + docCost i doc > maxKnowledgeTokens then
      (truncationNote (total - i), 0, true)
    else
      let r := buildContext rest (i + 1) (tokenCount + docCost i doc) total
      (wrapDoc i doc ++ r.1, r.2.1 + 1, r.2.2)

/-- GetKnowledgeContext given the document list returned by
GetKnowledgeForAgent: empty string when there are no documents, otherwise
the fixed header followed by the loop's output. -/
def getKnowledgeContext (docs : List (List Char)) : List Char :=
  if docs.isEmpty then []
  else kbHeader ++ (buildContext docs 0 (estTokens kbHeader.length) docs.length).1

/-- Concatenation of all documents from index `i` on, each wrapped with its
heading and separator — the untruncated tail of the context. -/
def wrapAll : Nat → List (List Char) → List Char
  | _, [] => []
  | i, d :: rest => wrapDoc i d ++ wrapAll (i + 1) rest

/-! Slice-aliasing model of GetAllKnowledgeFiles. The Go code copies the
registry's []KnowledgeFile into a fresh slice with copy(), which duplicates
the structs but not the backing array of each struct's AgentIDs slice. A
knowledge-file struct here carries the address of that backing array and a
heap maps addresses to string arrays. -/

/-- KnowledgeFile as stored in memory: the AgentIDs field is a slice header
pointing at a backing array in the heap. -/
structure KnowledgeFileRef where
  id : String
  name : String
  description : String
  filePath : String
  agentIDsAddr : Nat
  uploadedAt : Nat
  fileSize : Int
  contentType : String
deriving DecidableEq

/-- Heap of slice backing arrays. -/
def Heap := Nat → List String

/-- GetAllKnowledgeFiles: make a slice of the same length and copy() the
structs into it — a fresh list whose elements are field-by-field copies, so
each element's agent-IDs slice header still points at the registry's backing
array. -/
def goGetAllKnowledgeFiles (regFiles : List KnowledgeFileRef) : List KnowledgeFileRef :=
  regFiles.map (fun f => f)

/-- In-place update `slice[idx] = v` through an agent-IDs slice header. -/
def writeAgentID (h : Heap) (addr idx : Nat) (v : String) : Heap :=
  fun a => if a = addr then (h a).set idx v else h a

/-- The observable content of a file list under a heap: each struct paired
with the value of its agent-IDs array. -/
def obsFiles (h : Heap) (files : List KnowledgeFileRef) :
    List (KnowledgeFileRef × List String) :=
  files.map (fun f => (f, h f.agentIDsAddr))

/-! Upload handler (knowledge/handler.go): the 50 MiB request-size limit. -/

/-- Maximum upload size set by NewHandler: 50 MB. -/
def maxUploadSize : Nat := 50 * 1024 * 1024

/-- Go's filepath.Ext: the suffix of the final element starting at its last
dot, empty when the final element has no dot. -/
def pathExt (s : List Char) : List Char :=
  let rev := s.reverse
  let base := rev.takeWhile (fun c => !(c == '.') && !(c == '/'))
  match rev.drop base.length with
  | '.' :: _ => '.' :: base.reverse
  | _ => []

/-- An upload request as the handler observes it. `bodyLen` is the byte
length of the request body; `formWellFormed` abstracts whether the multipart
body parses when it is within the size limit; `hasFile` whether the "file"
part is present. http.MaxBytesReader caps the body at maxUploadSize, so
ParseMultipartForm fails whenever the body is larger (or malformed). -/
structure UploadHttpRequest where
  method : String
  bodyLen : Nat
  formWellFormed : Bool
  name : String
  description : String
  agentIDs : List String
  hasFile : Bool
  fileName : String
  contentType : String
deriving DecidableEq

/-- handleUpload (handler.go): method check, size-capped multipart parse,
field validation, .zip extension check, then StoreKnowledgeFile. Returns the
HTTP status written and the backend state afterwards. -/
def handleUpload (st : BackendState) (req : UploadHttpRequest)
    (basePath : List Char) (fileID : String) (entries : List ZipEntry)
    (size : Int) (now : Nat) (saveOk : Bool) : Nat × BackendState :=
  if req.method ≠ "POST" then (405, st)
  else if req.bodyLen > maxUploadSize ∨ ¬ req.formWellFormed then (400, st)
  else if req.name = "" then (400, st)
  else if req.agentIDs = [] then (400, st)
  else if ¬ req.hasFile then (400, st)
  else if pathExt req.fileName.data ≠ (".zip").data then (400, st)
  else
    match storeKnowledgeFile st basePath fileID req.name req.description
        req.agentIDs entries size req.contentType now saveOk with
    | (some _, _, st') => (200, st')
    | (none, _, st') => (500, st')

/-! Reachable backend states: the seeded initial state closed under the
registry-mutating operations of both backends. -/

/-- States reachable through the storage backend's operations, starting from
the seeded registry. -/
inductive Reachable : BackendState → Prop
  | seed (t : Nat) : Reachable (seedState t)
  | create (st : BackendState) (id name description tenantID apiKey : String)
      (now : Nat) (saveOk : Bool) : Reachable st →
      Reachable (createAgent st id name description tenantID apiKey now saveOk).2
  | store (st : BackendState) (basePath : List Char)
      (fileID name description : String) (agentIDs : List String)
      (entries : List ZipEntry) (size : Int) (contentType : String)
      (now : Nat) (saveOk : Bool) : Reachable st →
      Reachable (storeKnowledgeFile st basePath fileID name description agentIDs
        entries size contentType now saveOk).2.2
  | gcpStore (st : BackendState) (tempExtractDir : List Char)
      (fileID name description : String) (agentIDs : List String)
      (entries : List ZipEntry) (size : Int) (contentType : String)
      (now : Nat) (saveOk : Bool) : Reachable st →
      Reachable (gcpStoreKnowledgeFile st tempExtractDir fileID name description
        agentIDs entries size contentType now saveOk).2.2
  | delete (st : BackendState) (id : String) (saveOk removeOk : Bool) :
      Reachable st → Reachable (deleteKnowledgeFile st id saveOk removeOk).2
  | gcpDelete (st : BackendState) (id : String) (saveOk : Bool)
      (objectDeleteOk : List Bool) (timedOut : Bool) : Reachable st →
      Reachable (gcpDeleteKnowledgeFile st id saveOk objectDeleteOk timedOut).2

/-! Theorems. First, lemmas about the path model. -/

theorem splitSlash_ne_nil (s : List Char) : splitSlash s ≠ [] := by
  cases s with
  | nil => simp [splitSlash]
  | cons c rest =>
    simp only [splitSlash]
    split
    · simp
    · split <;> simp

theorem splitSlash_append (a b : List Char) :
    splitSlash (a ++ '/' :: b) = splitSlash a ++ splitSlash b := by
  induction a with
  | nil => simp [splitSlash]
  | cons c a ih =>
    by_cases hc : c = '/'
    · subst hc
      simp [splitSlash, ih]
    · obtain ⟨g, gs, hga⟩ : ∃ g gs, splitSlash a = g :: gs := by
        cases h : splitSlash a with
        | nil => exact absurd h (splitSlash_ne_nil a)
        | cons g gs => exact ⟨g, gs, rfl⟩
      simp [splitSlash, hc, ih, hga]

theorem intercalateSlash_splitSlash (s : List Char) :
    intercalateSlash (splitSlash s) = s := by
  induction s with
  | nil => rfl
  | cons c rest ih =>
    obtain ⟨g, gs, hg⟩ : ∃ g gs, splitSlash rest = g :: gs := by
      cases h : splitSlash rest with
      | nil => exact absurd h (splitSlash_ne_nil rest)
      | cons g gs => exact ⟨g, gs, rfl⟩
    by_cases hc : c = '/'
    · subst hc
      simp only [splitSlash, if_pos rfl, hg] at ih ⊢
      simp [intercalateSlash, ih]
    · simp only [splitSlash, if_neg hc, hg] at ih ⊢
      cases gs with
      | nil => simpa [intercalateSlash] using congrArg (c :: ·) ih
      | cons g' gs' => simpa [intercalateSlash] using congrArg (c :: ·) ih

theorem intercalateSlash_append (as bs : List (List Char))
    (ha : as ≠ []) (hb : bs ≠ []) :
    intercalateSlash (as ++ bs) = intercalateSlash as ++ '/' :: intercalateSlash bs := by
  induction as with
  | nil => exact absurd rfl ha
  | cons a as ih =>
    cases as with
    | nil =>
      cases bs with
      | nil => exact absurd rfl hb
      | cons b bs' => simp [intercalateSlash]
    | cons a' as' =>
      have ihh : intercalateSlash ((a' :: as') ++ bs)
          = intercalateSlash (a' :: as') ++ '/' :: intercalateSlash bs :=
        ih (by simp)
      rw [List.cons_append] at ihh
      show intercalateSlash (a :: a' :: as' ++ bs) = _
      rw [List.cons_append, List.cons_append]
      simp only [intercalateSlash]
      rw [ihh]
      simp [intercalateSlash]

theorem cleanStack_append (r : Bool) (xs ys : List (List Char))
    (st : List (List Char)) :
    cleanStack r st (xs ++ ys) = cleanStack r (cleanStack r st xs) ys := by
  induction xs generalizing st with
  | nil => rfl
  | cons c cs ih =>
    rw [List.cons_append]
    simp only [cleanStack]
    exact ih _

theorem cleanStack_no_dotdot (r : Bool) (cs : List (List Char))
    (st : List (List Char)) (h : ∀ c ∈ cs, c ≠ dotdot) :
    cleanStack r st cs = (cs.filter keepComp).reverse ++ st := by
  induction cs generalizing st with
  | nil => simp [cleanStack]
  | cons c cs ih =>
    have hc : c ≠ dotdot := h c (by simp)
    have hrest : ∀ x ∈ cs, x ≠ dotdot := fun x hx => h x (by simp [hx])
    simp only [cleanStack, List.filter]
    by_cases h1 : c = [] ∨ c = dotc
    · have hk : keepComp c = false := by simp [keepComp, h1]
      have hstep : cleanStep r st c = st := by simp [cleanStep, h1]
      rw [hstep, ih _ hrest, hk]
    · have hk : keepComp c = true := by simp [keepComp, h1]
      have hstep : cleanStep r st c = c :: st := by simp [cleanStep, h1, hc]
      rw [hstep, ih _ hrest, hk]
      simp

theorem goJoin_no_upward (dest name : List Char)
    (hd : cleanAbsPath dest = true) (hn : name ≠ [])
    (hu : hasUpward name = false) :
    goJoin dest name = dest ∨ ∃ tail, goJoin dest name = dest ++ '/' :: tail := by
  cases dest with
  | nil => simp [cleanAbsPath] at hd
  | cons c s =>
    simp only [cleanAbsPath, Bool.and_eq_true, beq_iff_eq, Bool.not_eq_true',
      List.all_eq_true] at hd
    obtain ⟨⟨hc, hs⟩, hcl⟩ := hd
    subst hc
    have hA : ∀ x ∈ splitSlash s, x ≠ [] ∧ x ≠ dotc ∧ x ≠ dotdot := by
      intro x hx
      have := hcl x hx
      simp only [Bool.and_eq_true, Bool.not_eq_true', List.isEmpty_eq_false,
        beq_eq_false_iff_ne, ne_eq] at this
      tauto
    have hB : ∀ x ∈ splitSlash name, x ≠ dotdot := by
      intro x hx hxe
      have htrue : hasUpward name = true := by
        rw [hasUpward]
        exact List.any_eq_true.mpr ⟨x, hx, by simp [hxe]⟩
      rw [htrue] at hu
      simp at hu
    have hjoin : goJoin ('/' :: s) name = goClean (('/' :: s) ++ '/' :: name) := by
      rw [goJoin, if_neg (by simp), if_neg hn]
    rw [hjoin]
    have hsplit1 : ('/' :: s) ++ '/' :: name = '/' :: (s ++ '/' :: name) := rfl
    rw [hsplit1, goClean]
    simp only [reduceIte]
    have h2 : splitSlash ('/' :: (s ++ '/' :: name)) = [] :: splitSlash (s ++ '/' :: name) := by
      simp [splitSlash]
    rw [h2, splitSlash_append]
    have h3 : cleanStack true [] ([] :: (splitSlash s ++ splitSlash name))
        = cleanStack true [] (splitSlash s ++ splitSlash name) := by
      simp [cleanStack, cleanStep]
    rw [h3, cleanStack_append]
    have h4 : cleanStack true [] (splitSlash s) = (splitSlash s).reverse := by
      rw [cleanStack_no_dotdot _ _ _ (fun x hx => (hA x hx).2.2)]
      rw [List.filter_eq_self.mpr]
      · simp
      · intro x hx
        simp [keepComp, (hA x hx).1, (hA x hx).2.1]
    rw [h4, cleanStack_no_dotdot _ _ _ hB]
    rw [List.reverse_append, List.reverse_reverse, List.reverse_reverse]
    by_cases hF : (splitSlash name).filter keepComp = []
    · left
      rw [hF, List.append_nil, intercalateSlash_splitSlash]
    · right
      refine ⟨intercalateSlash ((splitSlash name).filter keepComp), ?_⟩
      rw [intercalateSlash_append _ _ (splitSlash_ne_nil s) hF,
        intercalateSlash_splitSlash]
      rfl

theorem guard_no_upward (dest name : List Char)
    (hd : cleanAbsPath dest = true) (hn : name ≠ [])
    (hu : hasUpward name = false) :
    zipGuardAccepts dest name = true ∧ insideRoot dest (goJoin dest name) = true := by
  rcases goJoin_no_upward dest name hd hn hu with h | ⟨tail, h⟩
  · constructor
    · rw [zipGuardAccepts, h]
      exact List.isPrefixOf_iff_prefix.mpr (List.prefix_refl dest)
    · simp [insideRoot, h]
  · constructor
    · rw [zipGuardAccepts, h]
      exact List.isPrefixOf_iff_prefix.mpr (List.prefix_append dest _)
    · rw [insideRoot, h, Bool.or_eq_true]
      right
      refine List.isPrefixOf_iff_prefix.mpr ⟨tail, ?_⟩
      simp

/-! Lemmas about the token-budgeted context builder. -/

theorem buildContext_under (docs : List (List Char)) (i tc total : Nat)
    (h : tc + docsCost i docs ≤ maxKnowledgeTokens) :
    buildContext docs i tc total = (wrapAll i docs, docs.length, false) := by
  induction docs generalizing i tc with
  | nil => rfl
  | cons d rest ih =>
    simp only [docsCost] at h
    have hd : ¬ (tc + docCost i d > maxKnowledgeTokens) := by omega
    simp only [buildContext, if_neg hd]
    rw [ih (i + 1) (tc + docCost i d) (by omega)]
    simp [wrapAll]

theorem buildContext_over (docs : List (List Char)) (i tc total : Nat)
    (htc : tc ≤ maxKnowledgeTokens)
    (h : tc + docsCost i docs > maxKnowledgeTokens) :
    ∃ k, k < docs.length ∧
      buildContext docs i tc total
        = (wrapAll i (docs.take k) ++ truncationNote (total - (i + k)), k, true) := by
  induction docs generalizing i tc with
  | nil =>
    simp only [docsCost] at h
    omega
  | cons d rest ih =>
    by_cases hd : tc + docCost i d > maxKnowledgeTokens
    · refine ⟨0, by simp, ?_⟩
      simp [buildContext, if_pos hd, wrapAll]
    · push_neg at hd
      simp only [docsCost] at h
      obtain ⟨k, hk, heq⟩ := ih (i + 1) (tc + docCost i d) hd (by omega)
      refine ⟨k + 1, by simp; omega, ?_⟩
      simp only [buildContext, if_neg (by omega : ¬ (tc + docCost i d > maxKnowledgeTokens))]
      rw [heq]
      have harith : i + 1 + k = i + (k + 1) := by omega
      simp [wrapAll, wrapDoc, harith, List.append_assoc]

/-! Lemmas about registry bookkeeping. -/

theorem removeFirstById_any_false (files : List KnowledgeFile) (id : String)
    (h : (files.map (fun f => f.id)).Nodup) :
    ((removeFirstById files id).any (fun f => f.id == id)) = false := by
  induction files with
  | nil => rfl
  | cons f rest ih =>
    simp only [List.map_cons, List.nodup_cons] at h
    obtain ⟨hnotin, hrest⟩ := h
    by_cases hf : (f.id == id) = true
    · have hfe : f.id = id := by simpa using hf
      simp only [removeFirstById, if_pos hf]
      rw [List.any_eq_false]
      intro x hx hxe
      have hxid : x.id = id := by simpa using hxe
      exact hnotin (List.mem_map.mpr ⟨x, hx, by rw [hxid, hfe]⟩)
    · have hf' : (f.id == id) = false := by simpa using hf
      simp [removeFirstById, hf', ih hrest]

theorem createAgent_preserves_nodup (st : BackendState)
    (id name description tenantID apiKey : String) (now : Nat) (saveOk : Bool)
    (h : (st.mem.agents.map (fun a => a.id)).Nodup ∧
      (st.disk.agents.map (fun a => a.id)).Nodup) :
    (((createAgent st id name description tenantID apiKey now saveOk).2.mem.agents.map
        (fun a => a.id)).Nodup ∧
     ((createAgent st id name description tenantID apiKey now saveOk).2.disk.agents.map
        (fun a => a.id)).Nodup) := by
  simp only [createAgent]
  by_cases hdup : (st.mem.agents.any (fun a => a.id == id)) = true
  · simp only [if_pos hdup]
    exact h
  · have hnotin : id ∉ st.mem.agents.map (fun a => a.id) := by
      intro hmem
      obtain ⟨a, ha, hae⟩ := List.mem_map.mp hmem
      exact hdup (List.any_eq_true.mpr ⟨a, ha, by simp [hae]⟩)
    have hmemN : ((st.mem.agents ++
        [({ id := id, name := name, description := description, tenantID := tenantID,
            apiKey := apiKey, createdAt := now } : Agent)]).map (fun a => a.id)).Nodup := by
      rw [List.map_append]
      simp [List.nodup_append, h.1, hnotin]
    simp only [if_neg hdup]
    cases saveOk with
    | true =>
      simp only [reduceIte]
      exact ⟨hmemN, hmemN⟩
    | false =>
      simp only [Bool.false_eq_true, reduceIte]
      exact ⟨hmemN, h.2⟩

theorem storeKnowledgeFile_agents (st : BackendState) (basePath : List Char)
    (fileID name description : String) (agentIDs : List String)
    (entries : List ZipEntry) (size : Int) (contentType : String)
    (now : Nat) (saveOk : Bool) :
    ((storeKnowledgeFile st basePath fileID name description agentIDs entries size
        contentType now saveOk).2.2.mem.agents = st.mem.agents ∧
     (((storeKnowledgeFile st basePath fileID name description agentIDs entries size
        contentType now saveOk).2.2.disk.agents = st.mem.agents) ∨
      ((storeKnowledgeFile st basePath fileID name description agentIDs entries size
        contentType now saveOk).2.2.disk.agents = st.disk.agents))) := by
  simp only [storeKnowledgeFile]
  by_cases hr : (runExtract (localExtractDest basePath fileID) entries).success = true
  · simp only [if_pos hr]
    cases saveOk with
    | true => simp
    | false => simp
  · simp only [Bool.not_eq_true] at hr
    simp [hr]

theorem gcpStoreKnowledgeFile_agents (st : BackendState) (tempExtractDir : List Char)
    (fileID name description : String) (agentIDs : List String)
    (entries : List ZipEntry) (size : Int) (contentType : String)
    (now : Nat) (saveOk : Bool) :
    ((gcpStoreKnowledgeFile st tempExtractDir fileID name description agentIDs entries
        size contentType now saveOk).2.2.mem.agents = st.mem.agents ∧
     (((gcpStoreKnowledgeFile st tempExtractDir fileID name description agentIDs entries
        size contentType now saveOk).2.2.disk.agents = st.mem.agents) ∨
      ((gcpStoreKnowledgeFile st tempExtractDir fileID name description agentIDs entries
        size contentType now saveOk).2.2.disk.agents = st.disk.agents))) := by
  simp only [gcpStoreKnowledgeFile]
  cases saveOk with
  | true => simp
  | false => simp

theorem deleteKnowledgeFile_agents (st : BackendState) (id : String)
    (saveOk removeOk : Bool) :
    ((deleteKnowledgeFile st id saveOk removeOk).2.mem.agents = st.mem.agents ∧
     (((deleteKnowledgeFile st id saveOk removeOk).2.disk.agents = st.mem.agents) ∨
      ((deleteKnowledgeFile st id saveOk removeOk).2.disk.agents = st.disk.agents))) := by
  unfold deleteKnowledgeFile
  split
  · simp
  · split
    · split <;> simp
    · simp

theorem gcpDeleteKnowledgeFile_agents (st : BackendState) (id : String)
    (saveOk : Bool) (objectDeleteOk : List Bool) (timedOut : Bool) :
    ((gcpDeleteKnowledgeFile st id saveOk objectDeleteOk timedOut).2.mem.agents
        = st.mem.agents ∧
     (((gcpDeleteKnowledgeFile st id saveOk objectDeleteOk timedOut).2.disk.agents
        = st.mem.agents) ∨
      ((gcpDeleteKnowledgeFile st id saveOk objectDeleteOk timedOut).2.disk.agents
        = st.disk.agents))) := by
  unfold gcpDeleteKnowledgeFile
  split
  · simp
  · split
    · split <;> simp
    · simp

/-! Claim theorems. -/

/-- C1, counterexample. The claim fails in both directions on the code's
guard. The entry "a/../b.md" has an upward traversal component, yet the
extraction succeeds (no invalid-file-path error), because filepath.Join
cancels the ".." before the HasPrefix test. The entry "../extractedX" is
accepted by the guard although its resolved path "/data/files/f1/extractedX"
is a sibling of the destination root "/data/files/f1/extracted" (the string
HasPrefix test does not require a path-separator boundary), so the file is
written outside the destination root. -/
theorem zip_guard_counterexample :
    hasUpward (("a/../b.md").data) = true ∧
    (runExtract (("/data/files/f1/extracted").data)
        [⟨("a/../b.md").data, 3, false⟩]).success = true ∧
    zipGuardAccepts (("/data/files/f1/extracted").data) (("../extractedX").data) = true ∧
    extractWritten (("/data/files/f1/extracted").data)
        [⟨("../extractedX").data, 3, false⟩]
      = [("/data/files/f1/extractedX").data] ∧
    insideRoot (("/data/files/f1/extracted").data)
        (("/data/files/f1/extractedX").data) = false := by
  decide

/-- C1, amended. For archive entries whose relative path contains no upward
traversal component at all, the guard accepts every entry and every file the
extraction writes resolves inside the destination root (the destination being
an absolute path in Clean form, as both backends construct it). Entries that
do contain an upward traversal component are not reliably rejected: the guard
only checks that the cleaned joined path has the destination path as a string
prefix, which accepts cancelling ".." components and even sibling-directory
escapes (see the counterexample). -/
theorem extract_no_upward_entries_safe (dest : List Char) (entries : List ZipEntry)
    (hd : cleanAbsPath dest = true)
    (hnames : ∀ e ∈ entries, e.name ≠ [] ∧ hasUpward e.name = false) :
    (runExtract dest entries).success = true ∧
    (runExtract dest entries).errorName = none ∧
    ∀ p ∈ extractWritten dest entries, insideRoot dest p = true := by
  induction entries with
  | nil => simp [runExtract, extractWritten]
  | cons e rest ih =>
    obtain ⟨hn, hu⟩ := hnames e (by simp)
    have hrest := ih (fun x hx => hnames x (by simp [hx]))
    obtain ⟨hacc, hin⟩ := guard_no_upward dest e.name hd hn hu
    refine ⟨?_, ?_, ?_⟩
    · cases hdir : e.isDir <;>
        simp [runExtract, hacc, hdir, hrest.1]
    · cases hdir : e.isDir <;>
        simp [runExtract, hacc, hdir, hrest.1, hrest.2.1]
    · intro p hp
      cases hdir : e.isDir <;>
        simp only [extractWritten, hacc, hdir, reduceIte, List.nil_append,
          List.singleton_append, List.mem_cons] at hp
      · cases hp with
        | head => exact hin
        | tail b hmem => exact hrest.2.2 p hmem
      · exact hrest.2.2 p hp

/-- C1, witness for the amended theorem at a concrete archive. -/
theorem extract_no_upward_entries_safe_witness :
    cleanAbsPath (("/data/files/f1/extracted").data) = true ∧
    (∀ e ∈ ([⟨("docs/guide.md").data, 4, false⟩] : List ZipEntry),
      e.name ≠ [] ∧ hasUpward e.name = false) ∧
    (runExtract (("/data/files/f1/extracted").data)
        [⟨("docs/guide.md").data, 4, false⟩]).success = true ∧
    insideRoot (("/data/files/f1/extracted").data)
        (("/data/files/f1/extracted/docs/guide.md").data) = true := by
  refine ⟨by decide, by decide, ?_, ?_⟩
  · exact (extract_no_upward_entries_safe (("/data/files/f1/extracted").data)
      [⟨("docs/guide.md").data, 4, false⟩] (by decide) (by decide)).1
  · exact (extract_no_upward_entries_safe (("/data/files/f1/extracted").data)
      [⟨("docs/guide.md").data, 4, false⟩] (by decide) (by decide)).2.2
      (("/data/files/f1/extracted/docs/guide.md").data) (by decide)

/-- C2, counterexample. For the same traversal archive, the local backend
aborts the upload and leaves the registry unchanged, but the cloud backend
appends a knowledge-file record to the registry even though extraction
failed: the two backends do not behave identically and the cloud backend
does create a registry entry. -/
theorem store_extract_fail_backends_differ :
    (storeKnowledgeFile (seedState 0) (("/data").data) "f1" "kb" "" ["wavie-bot"]
        [⟨("../x").data, 1, false⟩] 1 "application/zip" 0 true).1 = none ∧
    (storeKnowledgeFile (seedState 0) (("/data").data) "f1" "kb" "" ["wavie-bot"]
        [⟨("../x").data, 1, false⟩] 1 "application/zip" 0 true).2.2 = seedState 0 ∧
    (gcpStoreKnowledgeFile (seedState 0) (("/tmp/wavie/extract-1").data) "f1" "kb" ""
        ["wavie-bot"] [⟨("../x").data, 1, false⟩] 1 "application/zip" 0 true).2.1.success
      = false ∧
    (gcpStoreKnowledgeFile (seedState 0) (("/tmp/wavie/extract-1").data) "f1" "kb" ""
        ["wavie-bot"] [⟨("../x").data, 1, false⟩] 1 "application/zip"
        0 true).2.2.mem.knowledgeFiles.length = 1 := by
  decide

/-- C2, amended. When extraction fails (in particular on an archive entry
rejected by the path guard), the local backend aborts the upload: it returns
no record and leaves the backend state unchanged. The cloud backend instead
continues: a knowledge-file record with the new file ID is appended to the
in-memory registry and the failure is only reported in the extraction
result. -/
theorem store_extract_fail_behavior (st : BackendState) (basePath tempExtractDir : List Char)
    (fileID name description : String) (agentIDs : List String) (entries : List ZipEntry)
    (size : Int) (contentType : String) (now : Nat) (saveOk : Bool)
    (hlocal : (runExtract (localExtractDest basePath fileID) entries).success = false)
    (hgcp : (runExtract tempExtractDir entries).success = false) :
    (storeKnowledgeFile st basePath fileID name description agentIDs entries size
        contentType now saveOk).1 = none ∧
    (storeKnowledgeFile st basePath fileID name description agentIDs entries size
        contentType now saveOk).2.2 = st ∧
    (gcpStoreKnowledgeFile st tempExtractDir fileID name description agentIDs entries size
        contentType now saveOk).2.1.success = false ∧
    ∃ kf : KnowledgeFile, kf.id = fileID ∧
      (gcpStoreKnowledgeFile st tempExtractDir fileID name description agentIDs entries size
          contentType now saveOk).2.2.mem.knowledgeFiles
        = st.mem.knowledgeFiles ++ [kf] := by
  refine ⟨?_, ?_, ?_, ?_⟩
  · simp [storeKnowledgeFile, hlocal]
  · simp [storeKnowledgeFile, hlocal]
  · cases saveOk <;> simp [gcpStoreKnowledgeFile, hgcp]
  · refine ⟨⟨fileID, name, description, "files/" ++ fileID, agentIDs, now, size,
      contentType⟩, rfl, ?_⟩
    cases saveOk <;> simp [gcpStoreKnowledgeFile]

/-- C2, witness for the amended theorem at a concrete traversal archive. -/
theorem store_extract_fail_behavior_witness :
    (runExtract (localExtractDest (("/kb").data) "f2")
        [⟨("../../evil.md").data, 2, false⟩]).success = false ∧
    (runExtract (("/tmp/wavie/extract-2").data)
        [⟨("../../evil.md").data, 2, false⟩]).success = false ∧
    (storeKnowledgeFile (seedState 1) (("/kb").data) "f2" "n" "d" ["wavie-bot"]
        [⟨("../../evil.md").data, 2, false⟩] 2 "application/zip" 1 false).1 = none ∧
    (storeKnowledgeFile (seedState 1) (("/kb").data) "f2" "n" "d" ["wavie-bot"]
        [⟨("../../evil.md").data, 2, false⟩] 2 "application/zip" 1 false).2.2
      = seedState 1 ∧
    ∃ kf : KnowledgeFile, kf.id = "f2" ∧
      (gcpStoreKnowledgeFile (seedState 1) (("/tmp/wavie/extract-2").data) "f2" "n" "d"
          ["wavie-bot"] [⟨("../../evil.md").data, 2, false⟩] 2 "application/zip"
          1 false).2.2.mem.knowledgeFiles
        = (seedState 1).mem.knowledgeFiles ++ [kf] := by
  refine ⟨by decide, by decide, ?_, ?_, ?_⟩
  · exact (store_extract_fail_behavior (seedState 1) (("/kb").data)
      (("/tmp/wavie/extract-2").data) "f2" "n" "d" ["wavie-bot"]
      [⟨("../../evil.md").data, 2, false⟩] 2 "application/zip" 1 false
      (by decide) (by decide)).1
  · exact (store_extract_fail_behavior (seedState 1) (("/kb").data)
      (("/tmp/wavie/extract-2").data) "f2" "n" "d" ["wavie-bot"]
      [⟨("../../evil.md").data, 2, false⟩] 2 "application/zip" 1 false
      (by decide) (by decide)).2.1
  · exact (store_extract_fail_behavior (seedState 1) (("/kb").data)
      (("/tmp/wavie/extract-2").data) "f2" "n" "d" ["wavie-bot"]
      [⟨("../../evil.md").data, 2, false⟩] 2 "application/zip" 1 false
      (by decide) (by decide)).2.2.2

/-- C3, counterexample. On the local backend, after the registry entry has
been removed and the registry saved, a failure of os.RemoveAll on the file
directory makes DeleteKnowledgeFile return an error, even though the
registry no longer references the file — so a physical-deletion failure does
make the delete operation fail. -/
theorem local_delete_physical_failure_fails :
    (deleteKnowledgeFile
        ⟨⟨[defaultAgent 0],
          [⟨"f1", "kb", "", "/data/files/f1", ["wavie-bot"], 0, 1, "application/zip"⟩]⟩,
         ⟨[defaultAgent 0],
          [⟨"f1", "kb", "", "/data/files/f1", ["wavie-bot"], 0, 1, "application/zip"⟩]⟩⟩
        "f1" true false).1 = DeleteOutcome.removeFailed ∧
    (deleteKnowledgeFile
        ⟨⟨[defaultAgent 0],
          [⟨"f1", "kb", "", "/data/files/f1", ["wavie-bot"], 0, 1, "application/zip"⟩]⟩,
         ⟨[defaultAgent 0],
          [⟨"f1", "kb", "", "/data/files/f1", ["wavie-bot"], 0, 1, "application/zip"⟩]⟩⟩
        "f1" true false).2.mem.knowledgeFiles = [] ∧
    DeleteOutcome.removeFailed ≠ DeleteOutcome.ok := by
  decide

/-- C3, amended. Only the cloud backend's DeleteKnowledgeFile (the variant
with the operation deadline) tolerates physical-deletion failures: when the
file is present and the registry save succeeds and the deadline does not
expire, the operation returns success for every pattern of per-object
deletion failures, and the updated registry (memory and persisted copy
alike) no longer references the file. On the local backend a RemoveAll
failure after the registry update fails the operation (see the
counterexample). -/
theorem gcp_delete_tolerates_physical_failures (st : BackendState) (id : String)
    (objectDeleteOk : List Bool)
    (hpresent : (st.mem.knowledgeFiles.any (fun f => f.id == id)) = true)
    (hnodup : (st.mem.knowledgeFiles.map (fun f => f.id)).Nodup) :
    (gcpDeleteKnowledgeFile st id true objectDeleteOk false).1 = DeleteOutcome.ok ∧
    ((gcpDeleteKnowledgeFile st id true objectDeleteOk false).2.mem.knowledgeFiles.any
        (fun f => f.id == id)) = false ∧
    (gcpDeleteKnowledgeFile st id true objectDeleteOk false).2.disk
      = (gcpDeleteKnowledgeFile st id true objectDeleteOk false).2.mem := by
  obtain ⟨f, hf, hp⟩ := List.any_eq_true.mp hpresent
  have hsome : (st.mem.knowledgeFiles.find? (fun f => f.id == id)).isSome = true :=
    List.find?_isSome.mpr ⟨f, hf, hp⟩
  obtain ⟨g, hfind⟩ := Option.isSome_iff_exists.mp hsome
  unfold gcpDeleteKnowledgeFile
  rw [hfind]
  simp [removeFirstById_any_false st.mem.knowledgeFiles id hnodup]

/-- C3, witness for the amended theorem at a concrete registry with one file
and all physical deletions failing. -/
theorem gcp_delete_tolerates_physical_failures_witness :
    ((⟨⟨[defaultAgent 0],
        [⟨"f1", "kb", "", "files/f1", ["wavie-bot"], 0, 1, "application/zip"⟩]⟩,
       ⟨[defaultAgent 0],
        [⟨"f1", "kb", "", "files/f1", ["wavie-bot"], 0, 1, "application/zip"⟩]⟩⟩ :
        BackendState).mem.knowledgeFiles.any (fun f => f.id == "f1")) = true ∧
    ((⟨⟨[defaultAgent 0],
        [⟨"f1", "kb", "", "files/f1", ["wavie-bot"], 0, 1, "application/zip"⟩]⟩,
       ⟨[defaultAgent 0],
        [⟨"f1", "kb", "", "files/f1", ["wavie-bot"], 0, 1, "application/zip"⟩]⟩⟩ :
        BackendState).mem.knowledgeFiles.map (fun f => f.id)).Nodup ∧
    (gcpDeleteKnowledgeFile
        ⟨⟨[defaultAgent 0],
          [⟨"f1", "kb", "", "files/f1", ["wavie-bot"], 0, 1, "application/zip"⟩]⟩,
         ⟨[defaultAgent 0],
          [⟨"f1", "kb", "", "files/f1", ["wavie-bot"], 0, 1, "application/zip"⟩]⟩⟩
        "f1" true [false, false] false).1 = DeleteOutcome.ok := by
  refine ⟨by decide, by decide, ?_⟩
  exact (gcp_delete_tolerates_physical_failures
    ⟨⟨[defaultAgent 0],
      [⟨"f1", "kb", "", "files/f1", ["wavie-bot"], 0, 1, "application/zip"⟩]⟩,
     ⟨[defaultAgent 0],
      [⟨"f1", "kb", "", "files/f1", ["wavie-bot"], 0, 1, "application/zip"⟩]⟩⟩
    "f1" [false, false] (by decide) (by decide)).1

/-- C4. With the combined estimate the code tracks (the fixed context header
plus every document's heading, body and separator at the 4-characters-per-
token ratio): when it stays within the 50000-token ceiling, the returned
context is exactly the header followed by every document wrapped whole, in
upload order — no truncation notice is appended; when it exceeds the
ceiling, the context is the header, a strict prefix of the documents wrapped
whole, and the truncation notice stating exactly how many documents were
omitted — so the included count is strictly below the total and no document
is partially included. -/
theorem knowledge_context_budget (docs : List (List Char)) :
    (combinedCost docs ≤ maxKnowledgeTokens →
      getKnowledgeContext docs
        = if docs.isEmpty then [] else kbHeader ++ wrapAll 0 docs) ∧
    (combinedCost docs > maxKnowledgeTokens →
      ∃ k, k < docs.length ∧
        getKnowledgeContext docs
          = kbHeader ++ wrapAll 0 (docs.take k) ++ truncationNote (docs.length - k)) := by
  constructor
  · intro h
    by_cases hne : docs.isEmpty
    · simp [getKnowledgeContext, hne]
    · rw [combinedCost] at h
      rw [getKnowledgeContext, if_neg hne, if_neg hne,
        buildContext_under docs 0 _ docs.length h]
  · intro h
    have hne : ¬ (docs.isEmpty = true) := by
      cases docs with
      | nil => revert h; decide
      | cons d rest => simp
    rw [combinedCost] at h
    obtain ⟨k, hk, heq⟩ :=
      buildContext_over docs 0 _ docs.length (by decide) h
    refine ⟨k, hk, ?_⟩
    rw [getKnowledgeContext, if_neg hne, heq]
    simp [List.append_assoc]

/-- C4, witness: a two-character document stays within the budget and is
returned whole; a 250000-character document exceeds the budget and triggers
the truncation branch. -/
theorem knowledge_context_budget_witness :
    (combinedCost [("ab").data] ≤ maxKnowledgeTokens ∧
      getKnowledgeContext [("ab").data]
        = if ([("ab").data] : List (List Char)).isEmpty then []
          else kbHeader ++ wrapAll 0 [("ab").data]) ∧
    (combinedCost [List.replicate 250000 'a'] > maxKnowledgeTokens ∧
      ∃ k, k < ([List.replicate 250000 'a'] : List (List Char)).length ∧
        getKnowledgeContext [List.replicate 250000 'a']
          = kbHeader ++ wrapAll 0 (([List.replicate 250000 'a'] : List (List Char)).take k)
            ++ truncationNote (([List.replicate 250000 'a'] : List (List Char)).length - k)) := by
  have hbig : combinedCost [List.replicate 250000 'a'] > maxKnowledgeTokens := by
    have h1 : (docHeading 0).length = 15 := by decide
    have h2 : kbHeader.length = 18 := by decide
    have h3 : docSeparator.length = 7 := by decide
    have h4 := List.length_replicate 250000 'a'
    rw [combinedCost, docsCost, docsCost, docCost, h1, h2, h3, h4]
    norm_num [estTokens, maxKnowledgeTokens]
  constructor
  · exact ⟨by decide, (knowledge_context_budget [("ab").data]).1 (by decide)⟩
  · exact ⟨hbig, (knowledge_context_budget [List.replicate 250000 'a']).2 hbig⟩

/-- C5. Creating an agent with a fresh ID and a successful registry save
returns an Agent with the given ID, name, description and tenant and an
empty API-key field; an immediate GetAgent on the resulting registry returns
the same stripped record; GetAllAgents on the resulting registry strips
every API key; and GetAgent never returns an agent whose API-key field is
nonempty, on any registry. -/
theorem create_get_agent_roundtrip (st : BackendState)
    (id name description tenantID apiKey : String) (now : Nat)
    (hfresh : (st.mem.agents.any (fun a => a.id == id)) = false) :
    (createAgent st id name description tenantID apiKey now true).1
      = some ⟨id, name, description, tenantID, "", now⟩ ∧
    getAgent (createAgent st id name description tenantID apiKey now true).2.mem id
      = some ⟨id, name, description, tenantID, "", now⟩ ∧
    (∀ a ∈ getAllAgents (createAgent st id name description tenantID apiKey now true).2.mem,
      a.apiKey = "") ∧
    (∀ (reg : KnowledgeRegistry) (aid : String) (a : Agent),
      getAgent reg aid = some a → a.apiKey = "") := by
  have hany : ¬ ((st.mem.agents.any (fun a => a.id == id)) = true) := by
    simp [hfresh]
  have hnone : st.mem.agents.find? (fun a => a.id == id) = none := by
    rw [List.find?_eq_none]
    intro a ha hpa
    exact hany (List.any_eq_true.mpr ⟨a, ha, hpa⟩)
  refine ⟨?_, ?_, ?_, ?_⟩
  · simp [createAgent, hany]
  · simp [createAgent, hany, getAgent, List.find?_append, hnone]
  · intro a ha
    simp only [getAllAgents, List.mem_map] at ha
    obtain ⟨b, _, rfl⟩ := ha
    rfl
  · intro reg aid a hget
    rw [getAgent] at hget
    cases hfind : reg.agents.find? (fun x => x.id == aid) with
    | none => rw [hfind] at hget; exact absurd hget (by simp)
    | some b =>
      rw [hfind] at hget
      injection hget with h
      rw [← h]

/-- C5, witness at the seeded registry and a fresh agent ID. -/
theorem create_get_agent_roundtrip_witness :
    ((seedState 0).mem.agents.any (fun a => a.id == "finance-bot")) = false ∧
    (createAgent (seedState 0) "finance-bot" "Finance" "d" "bitwave" "secret" 3 true).1
      = some ⟨"finance-bot", "Finance", "d", "bitwave", "", 3⟩ ∧
    getAgent (createAgent (seedState 0) "finance-bot" "Finance" "d" "bitwave" "secret"
        3 true).2.mem "finance-bot"
      = some ⟨"finance-bot", "Finance", "d", "bitwave", "", 3⟩ := by
  refine ⟨by decide, ?_, ?_⟩
  · exact (create_get_agent_roundtrip (seedState 0) "finance-bot" "Finance" "d"
      "bitwave" "secret" 3 (by decide)).1
  · exact (create_get_agent_roundtrip (seedState 0) "finance-bot" "Finance" "d"
      "bitwave" "secret" 3 (by decide)).2.1

/-- C6. In every backend state reachable through the storage backend's
operations from the seeded registry, agent IDs are pairwise distinct, in the
in-memory registry and in the persisted copy alike; and CreateAgent with an
ID already present returns an already-exists error and leaves the backend
state (memory and persisted copy) unchanged. -/
theorem agent_ids_unique_invariant :
    (∀ st : BackendState, Reachable st →
      (st.mem.agents.map (fun a => a.id)).Nodup ∧
      (st.disk.agents.map (fun a => a.id)).Nodup) ∧
    (∀ (st : BackendState) (id name description tenantID apiKey : String)
        (now : Nat) (saveOk : Bool),
      (st.mem.agents.any (fun a => a.id == id)) = true →
      createAgent st id name description tenantID apiKey now saveOk = (none, st)) := by
  constructor
  · intro st h
    induction h with
    | seed t => exact ⟨by simp [seedState, defaultAgent], by simp [seedState, defaultAgent]⟩
    | create st id name description tenantID apiKey now saveOk _ ih =>
      exact createAgent_preserves_nodup st id name description tenantID apiKey now saveOk ih
    | store st basePath fileID name description agentIDs entries size contentType now saveOk _ ih =>
      obtain ⟨hm, hd⟩ := storeKnowledgeFile_agents st basePath fileID name description
        agentIDs entries size contentType now saveOk
      refine ⟨by rw [hm]; exact ih.1, ?_⟩
      rcases hd with hd | hd
      · rw [hd]; exact ih.1
      · rw [hd]; exact ih.2
    | gcpStore st tempExtractDir fileID name description agentIDs entries size contentType now saveOk _ ih =>
      obtain ⟨hm, hd⟩ := gcpStoreKnowledgeFile_agents st tempExtractDir fileID name
        description agentIDs entries size contentType now saveOk
      refine ⟨by rw [hm]; exact ih.1, ?_⟩
      rcases hd with hd | hd
      · rw [hd]; exact ih.1
      · rw [hd]; exact ih.2
    | delete st id saveOk removeOk _ ih =>
      obtain ⟨hm, hd⟩ := deleteKnowledgeFile_agents st id saveOk removeOk
      refine ⟨by rw [hm]; exact ih.1, ?_⟩
      rcases hd with hd | hd
      · rw [hd]; exact ih.1
      · rw [hd]; exact ih.2
    | gcpDelete st id saveOk objectDeleteOk timedOut _ ih =>
      obtain ⟨hm, hd⟩ := gcpDeleteKnowledgeFile_agents st id saveOk objectDeleteOk timedOut
      refine ⟨by rw [hm]; exact ih.1, ?_⟩
      rcases hd with hd | hd
      · rw [hd]; exact ih.1
      · rw [hd]; exact ih.2
  · intro st id name description tenantID apiKey now saveOk hdup
    simp [createAgent, hdup]

/-- C6, witness: the seeded state is reachable with distinct agent IDs, and
creating the seeded default agent's ID again fails and changes nothing. -/
theorem agent_ids_unique_invariant_witness :
    (((seedState 0).mem.agents.map (fun a => a.id)).Nodup ∧
     ((seedState 0).disk.agents.map (fun a => a.id)).Nodup) ∧
    ((seedState 0).mem.agents.any (fun a => a.id == "wavie-bot")) = true ∧
    createAgent (seedState 0) "wavie-bot" "n" "d" "bitwave" "key" 7 true
      = (none, seedState 0) := by
  refine ⟨?_, by decide, ?_⟩
  · exact agent_ids_unique_invariant.1 (seedState 0) (Reachable.seed 0)
  · exact agent_ids_unique_invariant.2 (seedState 0) "wavie-bot" "n" "d" "bitwave"
      "key" 7 true (by decide)

/-- C7, counterexample. A cache miss for an agent with no knowledge files
returns the empty list without populating the cache: after the call the
cache still has no entry for the agent, so a second call consults the
backend again instead of being answered from the cache. -/
theorem empty_knowledge_not_cached :
    getKnowledgeForAgent ⟨[], []⟩ (fun _ => []) [] "wavie-bot" = ([], []) ∧
    cacheLookup (getKnowledgeForAgent ⟨[], []⟩ (fun _ => []) [] "wavie-bot").2 "wavie-bot"
      = none := by
  exact ⟨rfl, rfl⟩

/-- C7, amended. On a cache miss, when the agent has at least one knowledge
file, GetKnowledgeForAgent stores the retrieved document list in the cache
before returning, and a second call for the same agent is answered from the
cache without consulting the storage backend (the answer is the same for any
registry contents and any walk results). When the agent has no knowledge
files the function returns the empty list without populating the cache. -/
theorem knowledge_cache_population (reg : KnowledgeRegistry)
    (walk : KnowledgeFile → List (List Char)) (cache : Cache) (agentID : String)
    (hmiss : cacheLookup cache agentID = none)
    (hfiles : getKnowledgeFilesForAgent reg agentID ≠ []) :
    cacheLookup (getKnowledgeForAgent reg walk cache agentID).2 agentID
      = some (getKnowledgeForAgent reg walk cache agentID).1 ∧
    (∀ (reg' : KnowledgeRegistry) (walk' : KnowledgeFile → List (List Char)),
      getKnowledgeForAgent reg' walk' (getKnowledgeForAgent reg walk cache agentID).2 agentID
        = ((getKnowledgeForAgent reg walk cache agentID).1,
           (getKnowledgeForAgent reg walk cache agentID).2)) ∧
    (∀ (reg₀ : KnowledgeRegistry) (walk₀ : KnowledgeFile → List (List Char))
        (cache₀ : Cache) (agentID₀ : String),
      cacheLookup cache₀ agentID₀ = none →
      getKnowledgeFilesForAgent reg₀ agentID₀ = [] →
      getKnowledgeForAgent reg₀ walk₀ cache₀ agentID₀ = ([], cache₀)) := by
  have hne : (getKnowledgeFilesForAgent reg agentID).isEmpty = false := by
    cases hx : getKnowledgeFilesForAgent reg agentID with
    | nil => exact absurd hx hfiles
    | cons a l => rfl
  have hcall : getKnowledgeForAgent reg walk cache agentID
      = (((getKnowledgeFilesForAgent reg agentID).map walk).flatten,
         cacheInsert cache agentID
           (((getKnowledgeFilesForAgent reg agentID).map walk).flatten)) := by
    rw [getKnowledgeForAgent, hmiss]
    simp [hne]
  refine ⟨?_, ?_, ?_⟩
  · rw [hcall]
    simp [cacheLookup, cacheInsert]
  · intro reg' walk'
    rw [hcall]
    simp [getKnowledgeForAgent, cacheLookup, cacheInsert]
  · intro reg₀ walk₀ cache₀ agentID₀ hmiss₀ hempty₀
    rw [getKnowledgeForAgent, hmiss₀]
    simp [hempty₀]

/-- C7, witness at a registry with one file visible to the agent. -/
theorem knowledge_cache_population_witness :
    cacheLookup [] "wavie-bot" = none ∧
    getKnowledgeFilesForAgent
        ⟨[], [⟨"f1", "kb", "", "files/f1", ["wavie-bot"], 0, 1, "application/zip"⟩]⟩
        "wavie-bot" ≠ [] ∧
    cacheLookup
        (getKnowledgeForAgent
          ⟨[], [⟨"f1", "kb", "", "files/f1", ["wavie-bot"], 0, 1, "application/zip"⟩]⟩
          (fun f => [f.id.data]) [] "wavie-bot").2 "wavie-bot"
      = some (getKnowledgeForAgent
          ⟨[], [⟨"f1", "kb", "", "files/f1", ["wavie-bot"], 0, 1, "application/zip"⟩]⟩
          (fun f => [f.id.data]) [] "wavie-bot").1 := by
  refine ⟨rfl, by decide, ?_⟩
  exact (knowledge_cache_population
    ⟨[], [⟨"f1", "kb", "", "files/f1", ["wavie-bot"], 0, 1, "application/zip"⟩]⟩
    (fun f => [f.id.data]) [] "wavie-bot" rfl (by decide)).1

/-- C8, counterexample. GetAllKnowledgeFiles copies the structs but shares
each element's agent-IDs backing array with the registry: the returned
element's slice header carries the registry record's address, and writing
through it changes the registry's observable knowledge-file state. -/
theorem get_all_files_alias_mutation :
    (goGetAllKnowledgeFiles
        [⟨"f1", "kb", "", "files/f1", 0, 0, 1, "application/zip"⟩]).map
        (fun f => f.agentIDsAddr) = [0] ∧
    obsFiles
        (writeAgentID (fun a => if a = 0 then ["wavie-bot"] else []) 0 0 "other")
        [⟨"f1", "kb", "", "files/f1", 0, 0, 1, "application/zip"⟩]
      ≠ obsFiles (fun a => if a = 0 then ["wavie-bot"] else [])
        [⟨"f1", "kb", "", "files/f1", 0, 0, 1, "application/zip"⟩] := by
  refine ⟨rfl, ?_⟩
  intro h
  have := congrArg (fun l => l.map (fun p => p.2)) h
  simp [obsFiles, writeAgentID] at this

/-- C8, amended. Two calls to GetAllKnowledgeFiles with no intervening write
read equal (deep-equal) content — the observable content of the returned
list equals the registry's; the returned list itself is fresh, but each
element's agent-IDs slice header is the registry record's (the addresses
coincide), so only writes through addresses the registry does not reference
leave the registry's observable state unchanged — mutating a returned
element's agent_ids does change it (see the counterexample). -/
theorem get_all_files_copy_semantics (regFiles : List KnowledgeFileRef) (h : Heap) :
    obsFiles h (goGetAllKnowledgeFiles regFiles) = obsFiles h regFiles ∧
    (goGetAllKnowledgeFiles regFiles).map (fun f => f.agentIDsAddr)
      = regFiles.map (fun f => f.agentIDsAddr) ∧
    ∀ (addr idx : Nat) (v : String), addr ∉ regFiles.map (fun f => f.agentIDsAddr) →
      obsFiles (writeAgentID h addr idx v) regFiles = obsFiles h regFiles := by
  refine ⟨by simp [goGetAllKnowledgeFiles], by simp [goGetAllKnowledgeFiles], ?_⟩
  intro addr idx v haddr
  induction regFiles with
  | nil => rfl
  | cons f rest ih =>
    simp only [List.map_cons, List.mem_cons] at haddr
    push_neg at haddr
    simp only [obsFiles, List.map_cons, List.cons.injEq]
    constructor
    · have : f.agentIDsAddr ≠ addr := fun e => haddr.1 e.symm
      simp [writeAgentID, this]
    · exact ih haddr.2

/-- C8, witness: a write through an address the registry does not reference
leaves the observable registry state unchanged. -/
theorem get_all_files_copy_semantics_witness :
    (5 ∉ ([⟨"f1", "kb", "", "files/f1", 0, 0, 1, "application/zip"⟩] :
        List KnowledgeFileRef).map (fun f => f.agentIDsAddr)) ∧
    obsFiles
        (writeAgentID (fun a => if a = 0 then ["wavie-bot"] else []) 5 0 "other")
        [⟨"f1", "kb", "", "files/f1", 0, 0, 1, "application/zip"⟩]
      = obsFiles (fun a => if a = 0 then ["wavie-bot"] else [])
        [⟨"f1", "kb", "", "files/f1", 0, 0, 1, "application/zip"⟩] := by
  refine ⟨by decide, ?_⟩
  exact (get_all_files_copy_semantics
    [⟨"f1", "kb", "", "files/f1", 0, 0, 1, "application/zip"⟩]
    (fun a => if a = 0 then ["wavie-bot"] else [])).2.2 5 0 "other" (by decide)

/-- C9. A POST upload whose body exceeds 50 MiB (50*1024*1024 bytes) is
rejected with HTTP 400 — http.MaxBytesReader caps the body so
ParseMultipartForm fails — before any file is stored or the registry
changed: the handler returns with the backend state untouched. -/
theorem upload_size_limit_rejects (st : BackendState) (req : UploadHttpRequest)
    (basePath : List Char) (fileID : String) (entries : List ZipEntry)
    (size : Int) (now : Nat) (saveOk : Bool)
    (hpost : req.method = "POST")
    (hbig : req.bodyLen > 50 * 1024 * 1024) :
    handleUpload st req basePath fileID entries size now saveOk = (400, st) := by
  rw [handleUpload, if_neg (by simp [hpost]), if_pos]
  left
  rw [maxUploadSize]
  exact hbig

/-- C9, witness at a 50 MiB + 1 byte request. -/
theorem upload_size_limit_rejects_witness :
    (⟨"POST", 52428801, true, "kb", "", ["wavie-bot"], true, "kb.zip",
        "application/zip"⟩ : UploadHttpRequest).method = "POST" ∧
    (⟨"POST", 52428801, true, "kb", "", ["wavie-bot"], true, "kb.zip",
        "application/zip"⟩ : UploadHttpRequest).bodyLen > 50 * 1024 * 1024 ∧
    handleUpload (seedState 0)
        ⟨"POST", 52428801, true, "kb", "", ["wavie-bot"], true, "kb.zip",
          "application/zip"⟩
        (("/kb").data) "f1" [] 52428801 0 true = (400, seedState 0) := by
  refine ⟨rfl, by norm_num, ?_⟩
  exact upload_size_limit_rejects (seedState 0)
    ⟨"POST", 52428801, true, "kb", "", ["wavie-bot"], true, "kb.zip",
      "application/zip"⟩
    (("/kb").data) "f1" [] 52428801 0 true rfl (by norm_num)

/-- C10. GetKnowledgeFilesForAgent returns each knowledge file at most once
— the Go loop breaks after the first matching agent ID, so a file whose
agent_ids lists the agent several times is still appended once: the result's
length never exceeds the registry's file count, and no file occurs in the
result more often than in the registry. -/
theorem files_for_agent_at_most_once (reg : KnowledgeRegistry) (agentID : String) :
    (getKnowledgeFilesForAgent reg agentID).length ≤ reg.knowledgeFiles.length ∧
    ∀ f : KnowledgeFile,
      (getKnowledgeFilesForAgent reg agentID).count f ≤ reg.knowledgeFiles.count f := by
  constructor
  · exact List.length_filter_le _ _
  · intro f
    exact (List.filter_sublist _).count_le f

end Wavie
